import Mathlib

/-!
Shallow embedding of the EnergyZero `sensor.py` value-derivation and
formatting logic.

Conventions of the embedding:

* A naive Python `datetime` is modelled as an `Int`: the number of minutes
  since an (arbitrary) epoch midnight.  Hour-of-day and calendar-day of a
  naive datetime are recovered with Euclidean division by 60 and 1440.
* A timezone (the value returned by `dt_util.get_time_zone`) is modelled as a
  function `Int → Int` giving, for each UTC instant, the UTC offset in
  minutes at that instant.  This covers fixed-offset zones (`fun _ => 60` is
  UTC+1) as well as zones with DST transitions (piecewise-constant offsets).
  `dt_util.as_local(t).replace(tzinfo=None)` is then `t + tz t`.
* A Python price `float` is modelled as a rational number `ℚ`; the format
  specifier `f"{v:.2f}"` is modelled by exact decimal rounding of the
  rational with ties to even, matching CPython's `float.__format__`
  rounding mode.
* The `prices` dict of a series is modelled as an association list
  `List (Int × ℚ)` (Python dicts iterate in insertion order; the code sorts
  the pairs, so only the multiset of entries is observable).
-/

/-- Round `n / d` (with `d > 0`) to the nearest integer, ties to even:
the rounding CPython applies when formatting a float with `:.2f`. -/
def round2HalfEven (n d : ℤ) : ℤ :=
  let f := n.ediv d
  let rem := n - f * d
  if 2 * rem < d then f
  else if d < 2 * rem then f + 1
  else if f.emod 2 = 0 then f else f + 1

/-- The value of `f"{q:.2f}"` in whole cents, for the absolute value of `q`. -/
def cents (q : ℚ) : ℕ :=
  (round2HalfEven (100 * (q.num.natAbs : ℤ)) (q.den : ℤ)).toNat

/-- Two-digit zero-padded decimal rendering (`f"{n:02d}"` for `n < 100`). -/
def pad2 (n : ℕ) : List Char :=
  [Nat.digitChar (n / 10), Nat.digitChar (n % 10)]

/-- The characters of `f"{q:.2f}"`: optional sign, integer digits, a dot,
and exactly two fractional digits. -/
def fmt2 (q : ℚ) : List Char :=
  (if q.num < 0 then ['-'] else []) ++
    Nat.toDigits 10 (cents q / 100) ++ '.' :: pad2 (cents q % 100)

/-- The `.hour` attribute of a naive datetime given in minutes. -/
def hourOfDay (t : ℤ) : ℕ :=
  ((t.ediv 60).emod 24).toNat

/-- The calendar day index of a naive datetime given in minutes. -/
def dayOf (t : ℤ) : ℤ :=
  t.ediv 1440

/-- `dt_util.as_local(k.replace(tzinfo=UTC)).replace(tzinfo=None)`: interpret
the naive key `t` as UTC, shift it by the zone's offset at that instant, and
keep the resulting naive wall-clock value. -/
def toLocalNaive (tz : ℤ → ℤ) (t : ℤ) : ℤ :=
  t + tz t

/-- Python's lexicographic `<=` on the `(datetime, price)` tuples that
`sorted` compares in `process_timestamp_prices`. -/
def lexLe (a b : ℤ × ℚ) : Prop :=
  a.1 < b.1 ∨ (a.1 = b.1 ∧ a.2 ≤ b.2)

instance : DecidableRel lexLe := fun a b => by
  unfold lexLe
  infer_instance

instance : IsTotal (ℤ × ℚ) lexLe :=
  ⟨by
    intro a b
    rcases lt_trichotomy a.1 b.1 with h | h | h
    · exact Or.inl (Or.inl h)
    · rcases le_total a.2 b.2 with h2 | h2
      · exact Or.inl (Or.inr ⟨h, h2⟩)
      · exact Or.inr (Or.inr ⟨h.symm, h2⟩)
    · exact Or.inr (Or.inl h)⟩

instance : IsTrans (ℤ × ℚ) lexLe :=
  ⟨by
    intro a b c hab hbc
    rcases hab with h | ⟨he, h2⟩ <;> rcases hbc with h' | ⟨he', h2'⟩
    · exact Or.inl (h.trans h')
    · exact Or.inl (he' ▸ h)
    · exact Or.inl (he ▸ h')
    · exact Or.inr ⟨he.trans he', h2.trans h2'⟩⟩

instance : IsAntisymm (ℤ × ℚ) lexLe :=
  ⟨by
    intro a b hab hba
    rcases hab with h | ⟨he, h2⟩ <;> rcases hba with h' | ⟨he', h2'⟩
    · exact absurd (h.trans h') (lt_irrefl _)
    · exact absurd h (he' ▸ lt_irrefl _)
    · exact absurd h' (he ▸ lt_irrefl _)
    · exact Prod.ext he (le_antisymm h2 h2')⟩

/-- One commodity's price series, as held by the coordinator's data object:
the `prices` mapping (hour-aligned UTC timestamp → price) together with the
series' `utcnow()` reference instant. -/
structure PriceSeries where
  prices : List (ℤ × ℚ)
  utcnow : ℤ
deriving DecidableEq

/-- The coordinator snapshot `EnergyZeroData`: exactly one electricity
series and an optional gas series. -/
structure EnergyZeroData where
  energy_today : PriceSeries
  gas_today : Option PriceSeries
deriving DecidableEq

/-- The sorted list of `(local naive datetime, price)` pairs built inside
`process_timestamp_prices` (Python `sorted` over the converted dict items;
`List.insertionSort` computes the same list, since the lexicographic order
on the tuples is total and antisymmetric). -/
def localPrices (tz : ℤ → ℤ) (ps : List (ℤ × ℚ)) : List (ℤ × ℚ) :=
  List.insertionSort lexLe (ps.map fun p => (toLocalNaive tz p.1, p.2))

/-- The characters of one rendered item `f"{k.hour:02d}:{v:.2f}"`. -/
def renderEntry (p : ℤ × ℚ) : List Char :=
  pad2 (hourOfDay p.1) ++ ':' :: fmt2 p.2

/-- The list of rendered items that `",".join` concatenates. -/
def renderTokens (tz : ℤ → ℤ) (ps : List (ℤ × ℚ)) : List (List Char) :=
  (localPrices tz ps).map renderEntry

/-- `process_timestamp_prices(hass, data)` from `sensor.py`: convert the
UTC-keyed electricity prices to the local timezone, drop the offset, sort,
and render as a comma-separated `HH:price` string. -/
def process_timestamp_prices (tz : ℤ → ℤ) (data : EnergyZeroData) : String :=
  String.mk (List.intercalate [','] (renderTokens tz data.energy_today.prices))

/-- Splitting a character sequence at every `','`: the observable
"comma-separated tokens" of an output string. -/
def splitComma : List Char → List (List Char)
  | [] => [[]]
  | c :: rest =>
    let r := splitComma rest
    if c = ',' then [] :: r else (c :: r.headD []) :: r.tail

/-- The hour label of a rendered token: the numeric value of its first two
(digit) characters. -/
def tokenHour (cs : List Char) : ℕ :=
  match cs with
  | a :: b :: _ => 10 * (a.toNat - 48) + (b.toNat - 48)
  | _ => 0

/-- Does a token have the exact shape `HH:D.DD` (two digits, a colon, one
digit, a dot, two digits)? -/
def isHHDDD (cs : List Char) : Bool :=
  match cs with
  | [a, b, c, d, e, f, g] =>
    a.isDigit && b.isDigit && c == ':' && d.isDigit && e == '.' &&
      f.isDigit && g.isDigit
  | _ => false

/-- Modelled from the spec: `priceAt(series, instant)` of the external
`energyzero` package's `price_at_time` (not part of `src/`): the price for
the hour containing `instant`, or `none` when the series has no entry for
that hour. -/
def price_at_time (s : PriceSeries) (t : ℤ) : Option ℚ :=
  (s.prices.find? fun p => p.1 == 60 * t.ediv 60).map Prod.snd

/-- Modelled from the spec: `currentHourPrice(series, now)` of the external
package's `current_price` property: `priceAt(series, now)`. -/
def current_price (s : PriceSeries) : Option ℚ :=
  price_at_time s s.utcnow

/-- Modelled from the spec: `averagePrice(series)` of the external package's
`average_price` property: the arithmetic mean of all prices, undefined for
an empty series. -/
def average_price (s : PriceSeries) : Option ℚ :=
  match s.prices with
  | [] => none
  | p :: ps => some (((p :: ps).map Prod.snd).sum / ((p :: ps).length : ℚ))

/-- Modelled from the spec: `extremePrices(series)` of the external
package's `extreme_prices` property: the `(minimum, maximum)` price over
the series, undefined for an empty series. -/
def extreme_prices (s : PriceSeries) : Option (ℚ × ℚ) :=
  match s.prices.map Prod.snd with
  | [] => none
  | v :: vs => some (vs.foldl min v, vs.foldl max v)

/-- Modelled from the spec: `extremeTimes(series)` of the external package's
`highest_price_time` property: the earliest timestamp whose price attains
the maximum. -/
def highest_price_time (s : PriceSeries) : Option ℤ :=
  (extreme_prices s).bind fun e =>
    match (s.prices.filter fun p => p.2 = e.2).map Prod.fst with
    | [] => none
    | t :: ts => some (ts.foldl min t)

/-- Modelled from the spec: `extremeTimes(series)` of the external package's
`lowest_price_time` property: the earliest timestamp whose price attains
the minimum. -/
def lowest_price_time (s : PriceSeries) : Option ℤ :=
  (extreme_prices s).bind fun e =>
    match (s.prices.filter fun p => p.2 = e.1).map Prod.fst with
    | [] => none
    | t :: ts => some (ts.foldl min t)

/-- Modelled from the spec: `percentOfMax(series, now)` of the external
package's `pct_of_max_price` property: `100 * priceAt(series, now) / max`,
undefined when the current price is unavailable or the maximum is zero. -/
def pct_of_max_price (s : PriceSeries) : Option ℚ :=
  match current_price s, extreme_prices s with
  | some c, some e => if e.2 = 0 then none else some (100 * c / e.2)
  | _, _ => none

/-- Modelled from the spec: `countEqualOrCheaper(series, now)` of the
external package's `hours_priced_equal_or_lower` property: the number of
hours priced at or below the current price, `0` when the current price is
unavailable. -/
def hours_priced_equal_or_lower (s : PriceSeries) : ℕ :=
  match current_price s with
  | none => 0
  | some c => (s.prices.filter fun p => p.2 ≤ c).length

/-- `get_gas_price(data, hours)` from `sensor.py`: `None` when the gas
series is absent, otherwise the gas price at `utcnow() + hours` hours. -/
def get_gas_price (data : EnergyZeroData) (hours : ℤ) : Option ℚ :=
  match data.gas_today with
  | none => none
  | some g => price_at_time g (g.utcnow + 60 * hours)

/-- `value_fn` of the `today_gas` / `current_hour_price` sensor:
`data.gas_today.current_price if data.gas_today else None`. -/
def gas_current_hour_price (d : EnergyZeroData) : Option ℚ :=
  d.gas_today.bind current_price

/-- `value_fn` of the `today_gas` / `next_hour_price` sensor:
`get_gas_price(data, 1)`. -/
def gas_next_hour_price (d : EnergyZeroData) : Option ℚ :=
  get_gas_price d 1

/-- `value_fn` of the `today_energy` / `current_hour_price` sensor:
`data.energy_today.current_price`. -/
def energy_current_hour_price (d : EnergyZeroData) : Option ℚ :=
  current_price d.energy_today

/-- `value_fn` of the `today_energy` / `next_hour_price` sensor:
`data.energy_today.price_at_time(data.energy_today.utcnow() +
timedelta(hours=1))`. -/
def energy_next_hour_price (d : EnergyZeroData) : Option ℚ :=
  price_at_time d.energy_today (d.energy_today.utcnow + 60)

/-- `value_fn` of the `today_energy` / `average_price` sensor. -/
def energy_average_price (d : EnergyZeroData) : Option ℚ :=
  average_price d.energy_today

/-- `value_fn` of the `today_energy` / `max_price` sensor
(`extreme_prices[1]`). -/
def energy_max_price (d : EnergyZeroData) : Option ℚ :=
  (extreme_prices d.energy_today).map Prod.snd

/-- `value_fn` of the `today_energy` / `min_price` sensor
(`extreme_prices[0]`). -/
def energy_min_price (d : EnergyZeroData) : Option ℚ :=
  (extreme_prices d.energy_today).map Prod.fst

/-- `value_fn` of the `today_energy` / `highest_price_time` sensor. -/
def energy_highest_price_time (d : EnergyZeroData) : Option ℤ :=
  highest_price_time d.energy_today

/-- `value_fn` of the `today_energy` / `lowest_price_time` sensor. -/
def energy_lowest_price_time (d : EnergyZeroData) : Option ℤ :=
  lowest_price_time d.energy_today

/-- `value_fn` of the `today_energy` / `percentage_of_max` sensor. -/
def energy_pct_of_max (d : EnergyZeroData) : Option ℚ :=
  pct_of_max_price d.energy_today

/-- `value_fn` of the `today_energy` / `hours_priced_equal_or_lower`
sensor. -/
def energy_hours_priced_equal_or_lower (d : EnergyZeroData) : ℕ :=
  hours_priced_equal_or_lower d.energy_today

/-- `value_fn` of the `today_energy` / `timestamp_prices` sensor:
`process_timestamp_prices(hass, data)`. -/
def energy_timestamp_prices (tz : ℤ → ℤ) (d : EnergyZeroData) : String :=
  process_timestamp_prices tz d

/-- A sensor read as a computation over the shared snapshot state: the view
reads the snapshot and produces its value.  This is the effectful shape the
Python `native_value` property has; frame and determinism claims are stated
against it. -/
def runView {α : Type} (view : EnergyZeroData → α) :
    StateM EnergyZeroData α := do
  let d ← get
  pure (view d)

/-- Evaluate a view twice in sequence on the shared snapshot state and
return both values and the final state. -/
def evalTwice {α : Type} (m : StateM EnergyZeroData α) (d : EnergyZeroData) :
    (α × α) × EnergyZeroData :=
  (do
    let a ← m
    let b ← m
    pure (a, b)).run d

/-! ### Concrete data used to exercise the theorems -/

/-- The fixed-offset timezone UTC+1. -/
def exTzP1 : ℤ → ℤ := fun _ => 60

/-- The fixed-offset timezone UTC+0. -/
def exTzZero : ℤ → ℤ := fun _ => 0

/-- A timezone with a DST-style transition: offset 0 before the second day,
offset +60 from then on. -/
def exTzDST : ℤ → ℤ := fun t => if t < 1440 then 0 else 60

/-- A snapshot holding the given electricity series and no gas series. -/
def exData (ps : List (ℤ × ℚ)) : EnergyZeroData :=
  ⟨⟨ps, 0⟩, none⟩

/-- Twenty-four hourly entries starting at epoch midnight UTC; the first
hour is priced 12.50, the rest 0.50. -/
def ex24bad : List (ℤ × ℚ) :=
  ((0 : ℤ), mkRat 25 2) :: (List.range 23).map fun h => ((60 * (h + 1) : ℤ), mkRat 1 2)

/-- Twenty-four hourly entries starting at epoch midnight UTC, all
priced 0.50. -/
def ex24good : List (ℤ × ℚ) :=
  (List.range 24).map fun h => ((60 * h : ℤ), mkRat 1 2)

/-- Two entries at 01:00 of day zero and 05:00 of day one (UTC). -/
def ex2span : List (ℤ × ℚ) :=
  [((60 : ℤ), mkRat 1 2), ((1740 : ℤ), mkRat 1 2)]

/-- Two entries at 23:00 of day zero and 01:00 of day one (UTC). -/
def ex2wrap : List (ℤ × ℚ) :=
  [((1380 : ℤ), mkRat 1 2), ((1500 : ℤ), mkRat 1 2)]

/-- A gas series with one entry for the hour starting at 01:00. -/
def exGasSeries : PriceSeries :=
  ⟨[((60 : ℤ), mkRat 30 100)], 0⟩

/-- A snapshot that has a gas series present. -/
def exGasData : EnergyZeroData :=
  ⟨⟨[((0 : ℤ), mkRat 20 100)], 0⟩, some exGasSeries⟩

/-! ### Helper lemmas about digits and rendering -/

theorem digitChar_ne_comma (n : ℕ) : Nat.digitChar n ≠ ',' := by
  rcases Nat.lt_or_ge n 16 with h16 | h16
  · interval_cases n <;> exact (by decide)
  · have hs : Nat.digitChar n = '*' := by
      unfold Nat.digitChar
      repeat rw [if_neg (by omega)]
    rw [hs]
    decide

theorem toDigitsCore_ne_comma (b fuel : ℕ) :
    ∀ (n : ℕ) (acc : List Char), (∀ c ∈ acc, c ≠ ',') →
      ∀ c ∈ Nat.toDigitsCore b fuel n acc, c ≠ ',' := by
  induction fuel with
  | zero => intro n acc hacc c hc; exact hacc c hc
  | succ fuel ih =>
    intro n acc hacc c hc
    simp only [Nat.toDigitsCore] at hc
    split at hc
    · rcases List.mem_cons.mp hc with h | h
      · exact h ▸ digitChar_ne_comma _
      · exact hacc c h
    · refine ih _ _ ?_ c hc
      intro c hc
      rcases List.mem_cons.mp hc with h | h
      · exact h ▸ digitChar_ne_comma _
      · exact hacc c h

theorem toDigits_ne_comma (n : ℕ) : ∀ c ∈ Nat.toDigits 10 n, c ≠ ',' :=
  toDigitsCore_ne_comma 10 (n + 1) n [] (by intro c hc; cases hc)

theorem toDigits_single (n : ℕ) (h : n ≤ 9) :
    Nat.toDigits 10 n = [Nat.digitChar n] := by
  have h10 : n < 10 := by omega
  simp [Nat.toDigits, Nat.toDigitsCore, Nat.div_eq_of_lt h10, Nat.mod_eq_of_lt h10]

theorem digitChar_isDigit (n : ℕ) (h : n ≤ 9) :
    (Nat.digitChar n).isDigit = true := by
  interval_cases n <;> decide

theorem digitChar_toNat (n : ℕ) (h : n ≤ 9) :
    (Nat.digitChar n).toNat = 48 + n := by
  interval_cases n <;> decide

theorem hourOfDay_lt_24 (t : ℤ) : hourOfDay t < 24 := by
  unfold hourOfDay
  have h1 : 0 ≤ (t.ediv 60).emod 24 := Int.emod_nonneg _ (by norm_num)
  have h2 : (t.ediv 60).emod 24 < 24 := Int.emod_lt_of_pos _ (by norm_num)
  omega

theorem comma_not_mem_pad2 (n : ℕ) : ∀ c ∈ pad2 n, c ≠ ',' := by
  intro c hc
  rcases List.mem_cons.mp hc with h | h
  · exact h ▸ digitChar_ne_comma _
  · rcases List.mem_cons.mp h with h | h
    · exact h ▸ digitChar_ne_comma _
    · cases h

theorem comma_not_mem_fmt2 (q : ℚ) : ∀ c ∈ fmt2 q, c ≠ ',' := by
  intro c hc
  unfold fmt2 at hc
  rcases List.mem_append.mp hc with h | h
  · rcases List.mem_append.mp h with h | h
    · by_cases hneg : q.num < 0
      · rw [if_pos hneg] at h
        rcases List.mem_cons.mp h with h | h
        · exact h ▸ (by decide)
        · cases h
      · rw [if_neg hneg] at h
        cases h
    · exact toDigits_ne_comma _ c h
  · rcases List.mem_cons.mp h with h | h
    · exact h ▸ (by decide)
    · exact comma_not_mem_pad2 _ c h

theorem comma_not_mem_renderEntry (p : ℤ × ℚ) : ∀ c ∈ renderEntry p, c ≠ ',' := by
  intro c hc
  unfold renderEntry at hc
  rcases List.mem_append.mp hc with h | h
  · exact comma_not_mem_pad2 _ c h
  · rcases List.mem_cons.mp h with h | h
    · exact h ▸ (by decide)
    · exact comma_not_mem_fmt2 _ c h

theorem tokenHour_renderEntry (p : ℤ × ℚ) :
    tokenHour (renderEntry p) = hourOfDay p.1 := by
  have h24 : hourOfDay p.1 < 24 := hourOfDay_lt_24 p.1
  unfold renderEntry pad2 tokenHour
  simp only [List.cons_append]
  rw [digitChar_toNat (hourOfDay p.1 / 10) (by omega),
    digitChar_toNat (hourOfDay p.1 % 10) (by omega)]
  omega

/-! ### Helper lemmas about `splitComma` and `intercalate` -/

theorem splitComma_single (t : List Char) (h : ∀ c ∈ t, c ≠ ',') :
    splitComma t = [t] := by
  induction t with
  | nil => rfl
  | cons c rest ih =>
    have hc : c ≠ ',' := h c (List.mem_cons_self c rest)
    have ih2 := ih fun x hx => h x (List.mem_cons_of_mem c hx)
    simp [splitComma, hc, ih2]

theorem splitComma_append (t rest : List Char) (h : ∀ c ∈ t, c ≠ ',') :
    splitComma (t ++ ',' :: rest) = t :: splitComma rest := by
  induction t with
  | nil => simp [splitComma]
  | cons c tcs ih =>
    have hc : c ≠ ',' := h c (List.mem_cons_self c tcs)
    have ih2 := ih fun x hx => h x (List.mem_cons_of_mem c hx)
    simp [splitComma, hc, ih2]

theorem splitComma_intercalate (ts : List (List Char)) (hne : ts ≠ [])
    (h : ∀ t ∈ ts, ∀ c ∈ t, c ≠ ',') :
    splitComma (List.intercalate [','] ts) = ts := by
  induction ts with
  | nil => exact absurd rfl hne
  | cons t ts ih =>
    cases ts with
    | nil =>
      have : List.intercalate [','] [t] = t := by
        simp [List.intercalate, List.intersperse]
      rw [this]
      exact splitComma_single t (h t (List.mem_cons_self t []))
    | cons u ts =>
      have hstep : List.intercalate [','] (t :: u :: ts)
          = t ++ ',' :: List.intercalate [','] (u :: ts) := by
        simp [List.intercalate, List.intersperse]
      rw [hstep,
        splitComma_append _ _ (h t (List.mem_cons_self t (u :: ts))),
        ih (by simp) fun x hx => h x (List.mem_cons_of_mem t hx)]

/-! ### Helper lemmas about `localPrices` -/

theorem localPrices_pairwise (tz : ℤ → ℤ) (ps : List (ℤ × ℚ)) :
    (localPrices tz ps).Pairwise lexLe :=
  List.sorted_insertionSort lexLe _

theorem localPrices_perm (tz : ℤ → ℤ) (ps : List (ℤ × ℚ)) :
    (localPrices tz ps).Perm (ps.map fun p => (toLocalNaive tz p.1, p.2)) :=
  List.perm_insertionSort lexLe _

theorem localPrices_length (tz : ℤ → ℤ) (ps : List (ℤ × ℚ)) :
    (localPrices tz ps).length = ps.length := by
  rw [(localPrices_perm tz ps).length_eq, List.length_map]

theorem mem_localPrices_of_mem {tz : ℤ → ℤ} {ps : List (ℤ × ℚ)} {p : ℤ × ℚ}
    (hp : p ∈ ps) : (toLocalNaive tz p.1, p.2) ∈ localPrices tz ps :=
  (localPrices_perm tz ps).mem_iff.mpr (List.mem_map.mpr ⟨p, hp, rfl⟩)

theorem exists_key_of_mem_localPrices {tz : ℤ → ℤ} {ps : List (ℤ × ℚ)}
    {q : ℤ × ℚ} (hq : q ∈ localPrices tz ps) :
    ∃ p ∈ ps, q = (toLocalNaive tz p.1, p.2) := by
  have := (localPrices_perm tz ps).mem_iff.mp hq
  rcases List.mem_map.mp this with ⟨p, hp, he⟩
  exact ⟨p, hp, he.symm⟩

/-! ### Bounds on the rounded cents value -/

theorem round2HalfEven_nonneg {n d : ℤ} (hd : 0 < d) (hn : 0 ≤ n) :
    0 ≤ round2HalfEven n d := by
  have hf : 0 ≤ n.ediv d := Int.ediv_nonneg hn hd.le
  simp only [round2HalfEven]
  split
  · exact hf
  · split
    · linarith
    · split
      · exact hf
      · linarith

theorem round2HalfEven_le {n d B : ℤ} (hd : 0 < d) (hB : n ≤ B * d) :
    round2HalfEven n d ≤ B := by
  have hfB : n.ediv d ≤ B := by
    have h1 : n.ediv d ≤ (B * d).ediv d := Int.ediv_le_ediv hd hB
    have h2 : (B * d).ediv d = B := Int.mul_ediv_cancel _ (by omega)
    omega
  have hlt : ∀ hcond : d ≤ 2 * (n - n.ediv d * d), n.ediv d < B := by
    intro hcond
    rcases lt_or_eq_of_le hfB with h | h
    · exact h
    · exfalso
      rw [h] at hcond
      linarith
  simp only [round2HalfEven]
  split
  · exact hfB
  · split
    · have := hlt (by linarith)
      linarith
    · split
      · exact hfB
      · rename_i h1 h2 _
        have := hlt (by linarith [not_lt.mp h1])
        linarith

theorem cents_le_999 {q : ℚ} (h0 : 0 ≤ q) (h999 : q ≤ mkRat 999 100) :
    cents q ≤ 999 := by
  have hnum : 0 ≤ q.num := Rat.num_nonneg.mpr h0
  have hden : (0 : ℤ) < (q.den : ℤ) := by exact_mod_cast q.den_pos
  have hle : q.num * 100 ≤ 999 * (q.den : ℤ) := by
    have h := Rat.le_def.mp h999
    have hn : (mkRat 999 100).num = 999 := by decide
    have hd : ((mkRat 999 100).den : ℤ) = 100 := by decide
    rw [hn, hd] at h
    exact h
  have habs : (q.num.natAbs : ℤ) = q.num := Int.natAbs_of_nonneg hnum
  have hr : round2HalfEven (100 * (q.num.natAbs : ℤ)) (q.den : ℤ) ≤ 999 :=
    round2HalfEven_le hden (by rw [habs]; linarith)
  unfold cents
  omega

theorem isHHDDD_renderEntry (p : ℤ × ℚ) (h0 : 0 ≤ p.2)
    (h999 : p.2 ≤ mkRat 999 100) : isHHDDD (renderEntry p) = true := by
  have hc999 : cents p.2 ≤ 999 := cents_le_999 h0 h999
  have hnum : ¬ p.2.num < 0 := not_lt.mpr (Rat.num_nonneg.mpr h0)
  have hsingle : Nat.toDigits 10 (cents p.2 / 100)
      = [Nat.digitChar (cents p.2 / 100)] := toDigits_single _ (by omega)
  have h24 := hourOfDay_lt_24 p.1
  unfold renderEntry fmt2 pad2
  rw [if_neg hnum, hsingle]
  simp [isHHDDD, digitChar_isDigit _ (show hourOfDay p.1 / 10 ≤ 9 by omega),
    digitChar_isDigit _ (show hourOfDay p.1 % 10 ≤ 9 by omega),
    digitChar_isDigit _ (show cents p.2 / 100 ≤ 9 by omega),
    digitChar_isDigit _ (show cents p.2 % 100 / 10 ≤ 9 by omega),
    digitChar_isDigit _ (show cents p.2 % 100 % 10 ≤ 9 by omega)]

/-! ### Sortedness helpers -/

theorem lexLe_fst_le {a b : ℤ × ℚ} (h : lexLe a b) : a.1 ≤ b.1 := by
  rcases h with h | ⟨h, _⟩ <;> omega

theorem renderTokens_length (tz : ℤ → ℤ) (ps : List (ℤ × ℚ)) :
    (renderTokens tz ps).length = ps.length := by
  unfold renderTokens
  rw [List.length_map, localPrices_length]

theorem tokenHour_map_renderTokens (tz : ℤ → ℤ) (ps : List (ℤ × ℚ)) :
    (renderTokens tz ps).map tokenHour
      = (localPrices tz ps).map fun p => hourOfDay p.1 := by
  unfold renderTokens
  rw [List.map_map]
  congr 1
  funext p
  exact tokenHour_renderEntry p

theorem hour_le_of_sorted {l : List (ℤ × ℚ)} (hl : l.Pairwise lexLe)
    (hs : (l.map fun p => hourOfDay p.1).Sorted (· ≤ ·)) :
    ∀ a ∈ l, ∀ b ∈ l, a.1 < b.1 → hourOfDay a.1 ≤ hourOfDay b.1 := by
  induction l with
  | nil => intro a ha; cases ha
  | cons x xs ih =>
    rcases List.pairwise_cons.mp hl with ⟨hx, hxs⟩
    rw [List.map_cons] at hs
    rcases List.sorted_cons.mp hs with ⟨hsx, hsxs⟩
    intro a ha b hb hab
    rcases List.mem_cons.mp ha with hax | ha2
    · rcases List.mem_cons.mp hb with hbx | hb2
      · exfalso
        rw [hax, hbx] at hab
        exact lt_irrefl _ hab
      · rw [hax]
        exact hsx _ (List.mem_map.mpr ⟨b, hb2, rfl⟩)
    · rcases List.mem_cons.mp hb with hbx | hb2
      · exfalso
        have h1 := lexLe_fst_le (hx a ha2)
        rw [hbx] at hab
        omega
      · exact ih hxs hsxs a ha2 b hb2 hab

/-! ### Claim theorems -/

/-- C2: for the singleton UTC-keyed series `{00:00 → 0.24}` and local
timezone UTC+1, `process_timestamp_prices` outputs exactly `"01:0.24"`. -/
theorem c2_theorem :
    process_timestamp_prices exTzP1 (exData [((0 : ℤ), mkRat 24 100)])
      = "01:0.24" := by
  decide

/-- C4: for the empty price series `process_timestamp_prices` returns the
empty string (it is total, so it returns a single string for every
series). -/
theorem c4_theorem (tz : ℤ → ℤ) (d : EnergyZeroData)
    (h : d.energy_today.prices = []) :
    process_timestamp_prices tz d = "" := by
  unfold process_timestamp_prices renderTokens localPrices
  rw [h]
  rfl

/-- C4 witness: the empty-series case at a concrete snapshot. -/
theorem c4_witness : process_timestamp_prices exTzZero (exData []) = "" :=
  c4_theorem exTzZero (exData []) rfl

/-- C5: when the gas series is absent both gas views are `none` (the
embedding is total, so no exception is possible), and every
electricity-derived view is unchanged by the gas component of the
snapshot. -/
theorem c5_theorem (e : PriceSeries) (g : Option PriceSeries) (tz : ℤ → ℤ) :
    gas_current_hour_price ⟨e, none⟩ = none
    ∧ gas_next_hour_price ⟨e, none⟩ = none
    ∧ energy_current_hour_price ⟨e, g⟩ = energy_current_hour_price ⟨e, none⟩
    ∧ energy_next_hour_price ⟨e, g⟩ = energy_next_hour_price ⟨e, none⟩
    ∧ energy_average_price ⟨e, g⟩ = energy_average_price ⟨e, none⟩
    ∧ energy_max_price ⟨e, g⟩ = energy_max_price ⟨e, none⟩
    ∧ energy_min_price ⟨e, g⟩ = energy_min_price ⟨e, none⟩
    ∧ energy_highest_price_time ⟨e, g⟩ = energy_highest_price_time ⟨e, none⟩
    ∧ energy_lowest_price_time ⟨e, g⟩ = energy_lowest_price_time ⟨e, none⟩
    ∧ energy_pct_of_max ⟨e, g⟩ = energy_pct_of_max ⟨e, none⟩
    ∧ energy_hours_priced_equal_or_lower ⟨e, g⟩
        = energy_hours_priced_equal_or_lower ⟨e, none⟩
    ∧ energy_timestamp_prices tz ⟨e, g⟩ = energy_timestamp_prices tz ⟨e, none⟩ :=
  ⟨rfl, rfl, rfl, rfl, rfl, rfl, rfl, rfl, rfl, rfl, rfl, rfl⟩

/-- C6: the next-hour view of each commodity is the price looked up one
hour after the series' `utcnow()`; for gas this holds whenever the gas
series is present. -/
theorem c6_theorem (d : EnergyZeroData) (g : PriceSeries)
    (hg : d.gas_today = some g) :
    energy_next_hour_price d
        = price_at_time d.energy_today (d.energy_today.utcnow + 60)
    ∧ gas_next_hour_price d = price_at_time g (g.utcnow + 60) := by
  constructor
  · rfl
  · unfold gas_next_hour_price get_gas_price
    rw [hg]
    norm_num

/-- C6 witness: next-hour views at a concrete snapshot with gas present. -/
theorem c6_witness :
    energy_next_hour_price exGasData
        = price_at_time exGasData.energy_today (exGasData.energy_today.utcnow + 60)
    ∧ gas_next_hour_price exGasData
        = price_at_time exGasSeries (exGasSeries.utcnow + 60) :=
  c6_theorem exGasData exGasSeries rfl

/-- C7: every view, run as a computation over the shared snapshot state,
leaves the snapshot unchanged: the final state equals the initial one. -/
theorem c7_theorem (tz : ℤ → ℤ) (hours : ℤ) (d : EnergyZeroData) :
    ((runView (process_timestamp_prices tz)).run d).2 = d
    ∧ ((runView (fun x => get_gas_price x hours)).run d).2 = d
    ∧ ((runView gas_current_hour_price).run d).2 = d
    ∧ ((runView gas_next_hour_price).run d).2 = d
    ∧ ((runView energy_current_hour_price).run d).2 = d
    ∧ ((runView energy_next_hour_price).run d).2 = d
    ∧ ((runView energy_average_price).run d).2 = d
    ∧ ((runView energy_max_price).run d).2 = d
    ∧ ((runView energy_min_price).run d).2 = d
    ∧ ((runView energy_highest_price_time).run d).2 = d
    ∧ ((runView energy_lowest_price_time).run d).2 = d
    ∧ ((runView energy_pct_of_max).run d).2 = d
    ∧ ((runView energy_hours_priced_equal_or_lower).run d).2 = d
    ∧ ((runView (energy_timestamp_prices tz)).run d).2 = d :=
  ⟨rfl, rfl, rfl, rfl, rfl, rfl, rfl, rfl, rfl, rfl, rfl, rfl, rfl, rfl⟩

/-- C8: evaluating the same view twice in sequence on the same snapshot
state yields identical results. -/
theorem c8_theorem (tz : ℤ → ℤ) (hours : ℤ) (d : EnergyZeroData) :
    (evalTwice (runView (process_timestamp_prices tz)) d).1.1
        = (evalTwice (runView (process_timestamp_prices tz)) d).1.2
    ∧ (evalTwice (runView (fun x => get_gas_price x hours)) d).1.1
        = (evalTwice (runView (fun x => get_gas_price x hours)) d).1.2
    ∧ (evalTwice (runView gas_current_hour_price) d).1.1
        = (evalTwice (runView gas_current_hour_price) d).1.2
    ∧ (evalTwice (runView gas_next_hour_price) d).1.1
        = (evalTwice (runView gas_next_hour_price) d).1.2
    ∧ (evalTwice (runView energy_current_hour_price) d).1.1
        = (evalTwice (runView energy_current_hour_price) d).1.2
    ∧ (evalTwice (runView energy_next_hour_price) d).1.1
        = (evalTwice (runView energy_next_hour_price) d).1.2
    ∧ (evalTwice (runView energy_average_price) d).1.1
        = (evalTwice (runView energy_average_price) d).1.2
    ∧ (evalTwice (runView energy_max_price) d).1.1
        = (evalTwice (runView energy_max_price) d).1.2
    ∧ (evalTwice (runView energy_min_price) d).1.1
        = (evalTwice (runView energy_min_price) d).1.2
    ∧ (evalTwice (runView energy_highest_price_time) d).1.1
        = (evalTwice (runView energy_highest_price_time) d).1.2
    ∧ (evalTwice (runView energy_lowest_price_time) d).1.1
        = (evalTwice (runView energy_lowest_price_time) d).1.2
    ∧ (evalTwice (runView energy_pct_of_max) d).1.1
        = (evalTwice (runView energy_pct_of_max) d).1.2
    ∧ (evalTwice (runView energy_hours_priced_equal_or_lower) d).1.1
        = (evalTwice (runView energy_hours_priced_equal_or_lower) d).1.2
    ∧ (evalTwice (runView (energy_timestamp_prices tz)) d).1.1
        = (evalTwice (runView (energy_timestamp_prices tz)) d).1.2 :=
  ⟨rfl, rfl, rfl, rfl, rfl, rfl, rfl, rfl, rfl, rfl, rfl, rfl, rfl, rfl⟩

/-- C3: each series key, interpreted as UTC and shifted to the local
timezone with the offset then discarded, contributes exactly the rendered
item built from its naive local wall-clock value; every rendered item
arises from some key this way, and its hour label is the naive local
wall-clock hour. -/
theorem c3_theorem (tz : ℤ → ℤ) (d : EnergyZeroData) :
    (∀ p ∈ d.energy_today.prices,
        renderEntry (toLocalNaive tz p.1, p.2)
          ∈ renderTokens tz d.energy_today.prices)
    ∧ (∀ t ∈ renderTokens tz d.energy_today.prices,
        ∃ p ∈ d.energy_today.prices,
          t = renderEntry (toLocalNaive tz p.1, p.2))
    ∧ (∀ p : ℤ × ℚ,
        tokenHour (renderEntry (toLocalNaive tz p.1, p.2))
          = hourOfDay (toLocalNaive tz p.1)) := by
  refine ⟨?_, ?_, ?_⟩
  · intro p hp
    exact List.mem_map.mpr ⟨_, mem_localPrices_of_mem hp, rfl⟩
  · intro t ht
    rcases List.mem_map.mp ht with ⟨q, hq, rfl⟩
    rcases exists_key_of_mem_localPrices hq with ⟨p, hp, rfl⟩
    exact ⟨p, hp, rfl⟩
  · intro p
    exact tokenHour_renderEntry _

/-- C3 witness: the token of a concrete key is present in the rendering. -/
theorem c3_witness :
    renderEntry (toLocalNaive exTzP1 0, mkRat 24 100)
      ∈ renderTokens exTzP1 [((0 : ℤ), mkRat 24 100)] :=
  (c3_theorem exTzP1 (exData [((0 : ℤ), mkRat 24 100)])).1
    ((0 : ℤ), mkRat 24 100) (by decide)

/-- C1 counterexample: a 24-entry hourly series (UTC hours 0..23, one price
12.50) under timezone UTC+1 whose output does not satisfy the claim: a
token fails the `HH:D.DD` shape and the hour labels of the tokens are not
in ascending order (they wrap past local midnight). -/
theorem c1_counterexample :
    ¬ ((splitComma (process_timestamp_prices exTzP1 (exData ex24bad)).data).length = 24
      ∧ (∀ t ∈ splitComma (process_timestamp_prices exTzP1 (exData ex24bad)).data,
          isHHDDD t = true)
      ∧ ((splitComma (process_timestamp_prices exTzP1 (exData ex24bad)).data).map
          tokenHour).Sorted (· ≤ ·)) := by
  decide

/-- C1 (amended): for every 24-entry electricity series whose prices lie in
`[0, 9.99]`, the output splits at commas into exactly 24 tokens, each of
shape `HH:D.DD`, and the tokens appear in ascending order of the naive
local datetime (the hour labels alone may wrap past local midnight). -/
theorem c1_theorem (tz : ℤ → ℤ) (d : EnergyZeroData)
    (h24 : d.energy_today.prices.length = 24)
    (hval : ∀ p ∈ d.energy_today.prices, 0 ≤ p.2 ∧ p.2 ≤ mkRat 999 100) :
    splitComma (process_timestamp_prices tz d).data
        = renderTokens tz d.energy_today.prices
    ∧ (renderTokens tz d.energy_today.prices).length = 24
    ∧ (∀ t ∈ renderTokens tz d.energy_today.prices, isHHDDD t = true)
    ∧ ((localPrices tz d.energy_today.prices).map Prod.fst).Sorted (· ≤ ·) := by
  have hlen : (renderTokens tz d.energy_today.prices).length = 24 := by
    rw [renderTokens_length, h24]
  refine ⟨?_, hlen, ?_, ?_⟩
  · show splitComma (List.intercalate [','] (renderTokens tz d.energy_today.prices)) = _
    refine splitComma_intercalate _ ?_ ?_
    · intro h
      rw [h] at hlen
      simp at hlen
    · intro t ht
      rcases List.mem_map.mp ht with ⟨q, _, rfl⟩
      exact comma_not_mem_renderEntry q
  · intro t ht
    rcases List.mem_map.mp ht with ⟨q, hq, rfl⟩
    rcases exists_key_of_mem_localPrices hq with ⟨p, hp, rfl⟩
    exact isHHDDD_renderEntry _ (hval p hp).1 (hval p hp).2
  · rw [List.Sorted, List.pairwise_map]
    exact (localPrices_pairwise tz _).imp fun hab => lexLe_fst_le hab

/-- C1 witness: the amended statement at a concrete 24-entry series. -/
theorem c1_witness :
    splitComma (process_timestamp_prices exTzP1 (exData ex24good)).data
        = renderTokens exTzP1 ex24good
    ∧ (renderTokens exTzP1 ex24good).length = 24
    ∧ (∀ t ∈ renderTokens exTzP1 ex24good, isHHDDD t = true)
    ∧ ((localPrices exTzP1 ex24good).map Prod.fst).Sorted (· ≤ ·) :=
  c1_theorem exTzP1 (exData ex24good) (by decide) (by decide)

/-- C9 counterexample: a series spanning two local calendar days whose
rendered hour labels nevertheless are ascending, refuting the claim that
the label sequence of every such series fails to be ascending. -/
theorem c9_counterexample :
    (∃ a ∈ localPrices exTzZero ex2span, ∃ b ∈ localPrices exTzZero ex2span,
        dayOf a.1 < dayOf b.1)
    ∧ ((renderTokens exTzZero ex2span).map tokenHour).Sorted (· ≤ ·) := by
  decide

/-- C9 (amended): entries are sorted by the full naive local datetime, so
entries of a later local day always render after all entries of an earlier
local day; and whenever some earlier-day entry has a larger local hour
than some later-day entry, the rendered hour labels are not ascending. -/
theorem c9_theorem (tz : ℤ → ℤ) (d : EnergyZeroData) :
    (localPrices tz d.energy_today.prices).Pairwise
        (fun a b => dayOf a.1 ≤ dayOf b.1)
    ∧ ∀ a ∈ localPrices tz d.energy_today.prices,
        ∀ b ∈ localPrices tz d.energy_today.prices,
          dayOf a.1 < dayOf b.1 → hourOfDay b.1 < hourOfDay a.1 →
            ¬ ((renderTokens tz d.energy_today.prices).map tokenHour).Sorted
                (· ≤ ·) := by
  constructor
  · refine (localPrices_pairwise tz _).imp fun hab => ?_
    have h1 := lexLe_fst_le hab
    exact Int.ediv_le_ediv (by norm_num) h1
  · intro a ha b hb hday hhour hsorted
    have hab : a.1 < b.1 := by
      by_contra hnot
      push_neg at hnot
      have h2 : b.1.ediv 1440 ≤ a.1.ediv 1440 :=
        Int.ediv_le_ediv (by norm_num) hnot
      unfold dayOf at hday
      omega
    rw [tokenHour_map_renderTokens] at hsorted
    have hmono := hour_le_of_sorted (localPrices_pairwise tz _) hsorted a ha b hb hab
    omega

/-- C9 witness: a concrete wrap (23:00 of day zero before 01:00 of day
one) whose hour labels are not ascending. -/
theorem c9_witness :
    ¬ ((renderTokens exTzZero ex2wrap).map tokenHour).Sorted (· ≤ ·) :=
  (c9_theorem exTzZero (exData ex2wrap)).2 ((1380 : ℤ), mkRat 1 2) (by decide)
    ((1500 : ℤ), mkRat 1 2) (by decide) (by decide) (by decide)

/-- C10 counterexample: under a timezone with a DST transition, two
entries whose keys are exactly 24 hours apart render with different hour
labels, refuting the claim that such entries always produce identical
labels. -/
theorem c10_counterexample :
    tokenHour (renderEntry (toLocalNaive exTzDST 60, mkRat 1 2))
      ≠ tokenHour (renderEntry (toLocalNaive exTzDST 1500, mkRat 1 2)) := by
  decide

theorem hourOfDay_add_1440 (t : ℤ) : hourOfDay (t + 1440) = hourOfDay t := by
  unfold hourOfDay
  have h1 : (t + 1440).ediv 60 = t.ediv 60 + 24 := by
    rw [show (1440 : ℤ) = 24 * 60 by norm_num]
    exact Int.add_mul_ediv_right t 24 (by norm_num)
  have h2 : (t.ediv 60 + 1 * 24).emod 24 = (t.ediv 60).emod 24 :=
    Int.add_mul_emod_self
  rw [h1, show t.ediv 60 + 24 = t.ediv 60 + 1 * 24 by ring, h2]

/-- C10 (amended): for every series the rendering emits exactly one token
per entry and every entry is represented; the hour label is the hour of
day of the naive local datetime only, so two entries 24 hours apart render
identically whenever the timezone offset agrees at the two instants (in
particular under any fixed-offset timezone). -/
theorem c10_theorem (tz : ℤ → ℤ) (d : EnergyZeroData) :
    (renderTokens tz d.energy_today.prices).length
        = d.energy_today.prices.length
    ∧ (∀ p ∈ d.energy_today.prices,
        renderEntry (toLocalNaive tz p.1, p.2)
          ∈ renderTokens tz d.energy_today.prices)
    ∧ (d.energy_today.prices ≠ [] →
        splitComma (process_timestamp_prices tz d).data
          = renderTokens tz d.energy_today.prices)
    ∧ (∀ p : ℤ × ℚ, tokenHour (renderEntry p) = hourOfDay p.1)
    ∧ (∀ (k : ℤ) (v : ℚ), tz k = tz (k + 1440) →
        renderEntry (toLocalNaive tz k, v)
          = renderEntry (toLocalNaive tz (k + 1440), v)) := by
  refine ⟨renderTokens_length tz _, ?_, ?_, tokenHour_renderEntry, ?_⟩
  · intro p hp
    exact List.mem_map.mpr ⟨_, mem_localPrices_of_mem hp, rfl⟩
  · intro hne
    refine splitComma_intercalate _ ?_ ?_
    · intro h
      apply hne
      have hlen : (renderTokens tz d.energy_today.prices).length = 0 := by
        rw [h]
        rfl
      rw [renderTokens_length] at hlen
      exact List.eq_nil_of_length_eq_zero hlen
    · intro t ht
      rcases List.mem_map.mp ht with ⟨q, _, rfl⟩
      exact comma_not_mem_renderEntry q
  · intro k v hoff
    unfold renderEntry toLocalNaive
    rw [hoff]
    have hh : hourOfDay (k + 1440 + tz (k + 1440))
        = hourOfDay (k + tz (k + 1440)) := by
      rw [show k + 1440 + tz (k + 1440) = k + tz (k + 1440) + 1440 by ring]
      exact hourOfDay_add_1440 _
    rw [hh]

/-- C10 witness: the amended statement exercised at concrete inputs. -/
theorem c10_witness :
    splitComma (process_timestamp_prices exTzZero (exData ex2wrap)).data
        = renderTokens exTzZero ex2wrap
    ∧ renderEntry (toLocalNaive exTzZero 0, mkRat 1 2)
        = renderEntry (toLocalNaive exTzZero 1440, mkRat 1 2) :=
  ⟨(c10_theorem exTzZero (exData ex2wrap)).2.2.1 (by decide),
    (c10_theorem exTzZero (exData ex2wrap)).2.2.2.2 0 (mkRat 1 2) rfl⟩
